import Mathlib

/-!
Verification development for the SmartMentor content pipeline.

The definitions below are a shallow embedding of the classification and
schema-mapping logic of the repository:

* `classify_with_keywords`, `classify_with_openai`, `classify_text`
  embed `LLMClassifier` from `src/llm_classifier.py`;
* `classify_by_filename`, `extract_features`, `classify_by_features`,
  `classify_image`, `organize_images` embed `ImageClassifier` from
  `src/image_classifier.py`;
* `dedupWithIndex`, `extract_steps`, `generate_sql_inserts` embed
  `DataCleaner` from `src/Phase1_OfflineProcessing/auto_database_mapper.py`;
* `compare_categories` embeds `DataComparer.compare_categories` from
  `src/comparison_tool.py`.

Modelling conventions: Python strings are Lean `String` (computations work
on the underlying `List Char`); Python floats are exact rationals `ℚ`;
the regex word character class is modelled for ASCII text as alphanumeric
or underscore; `str.strip` is modelled for the ASCII whitespace characters
recognised by `Char.isWhitespace`.
-/

/-- Word character as in the regex class used by the word-boundary pattern
in `classify_with_keywords` (ASCII fragment of the Python class). -/
def isWordChar (c : Char) : Bool := c.isAlphanum || c = '_'

/-- Whitespace test backing the model of Python `str.strip`. -/
def isSpaceChar (c : Char) : Bool := c.isWhitespace

/-- Model of Python `str.strip()` on the character list of a string. -/
def pyStrip (t : List Char) : List Char :=
  ((t.dropWhile isSpaceChar).reverse.dropWhile isSpaceChar).reverse

/-- Model of Python `str.lower()` (ASCII case folding). -/
def lowerL (t : List Char) : List Char := t.map Char.toLower

/-- The keyword occurs in `t` starting exactly at position `i`. -/
def occursAt (kw t : List Char) (i : Nat) : Bool :=
  decide ((t.drop i).take kw.length = kw)

/-- Model of the Python substring test `keyword in text`. -/
def substrMatch (kw t : List Char) : Bool :=
  (List.range (t.length + 1)).any (fun i => occursAt kw t i)

/-- Whether position `i` of `t` holds a word character (out of range counts
as a non-word position, as at the ends of a regex subject). -/
def wordCharAt (t : List Char) (i : Nat) : Bool :=
  match t.get? i with
  | none => false
  | some c => isWordChar c

/-- Model of the Python regex search for `\b` + keyword + `\b`: some
occurrence of the keyword has a word/non-word boundary on both sides. -/
def wordMatch (kw t : List Char) : Bool :=
  (List.range (t.length + 1)).any (fun i =>
    occursAt kw t i &&
    ((if i = 0 then false else wordCharAt t (i - 1)) != wordCharAt t i) &&
    (wordCharAt t (i + kw.length - 1) != wordCharAt t (i + kw.length)))

/-- Keyword knowledge base of `LLMClassifier.__init__`, in declaration
order (Python dicts preserve insertion order). -/
def keyword_categories : List (String × List String) :=
  [("Pin Definitions",
    ["pin", "pinout", "gpio", "digital", "analog", "pwm", "i2c", "spi",
     "uart", "tx", "rx", "vcc", "gnd"]),
   ("Programming Instructions",
    ["code", "program", "sketch", "void setup", "void loop", "function",
     "library", "digitalwrite", "analogread", "serial.begin"]),
   ("Component Descriptions",
    ["sensor", "led", "resistor", "capacitor", "motor", "display", "module",
     "transistor", "diode", "breadboard", "jumper"]),
   ("Troubleshooting Tips",
    ["error", "problem", "fix", "debug", "solution", "issue",
     "won\x27t work", "not working", "failed", "check", "verify"])]

/-- Keyword list attached to a category name (empty for unknown names). -/
def kwListOf (c : String) : List String :=
  ((keyword_categories.find? (fun p => p.1 = c)).map Prod.snd).getD []

/-- Score loop body of `classify_with_keywords`: 2 points for a
word-boundary match, else 1 point for a plain substring match. -/
def keywordScore (kws : List String) (t : List Char) : Nat :=
  kws.foldl
    (fun s kw =>
      if wordMatch kw.data t then s + 2
      else if substrMatch kw.data t then s + 1
      else s) 0

/-- The `category_scores` dict: categories with a positive score, in
declaration order. -/
def category_scores (t : List Char) : List (String × Nat) :=
  (keyword_categories.map (fun p => (p.1, keywordScore p.2 t))).filter
    (fun p => 0 < p.2)

/-- Model of Python `max(items, key=lambda x: x[1])`: the first item of the
list attaining the maximal second component (`none` on the empty list). -/
def pyMaxBySnd : List (String × Nat) → Option (String × Nat)
  | [] => none
  | p :: ps =>
    match pyMaxBySnd ps with
    | none => some p
    | some q => if q.2 > p.2 then some q else some p

/-- Confidence formula of `classify_with_keywords`:
`min(score / (keyword_count * 2), 1.0)`. -/
def confOf (s n : Nat) : ℚ := min ((s : ℚ) / (n * 2)) 1

/-- Embedding of `LLMClassifier.classify_with_keywords`. -/
def classify_with_keywords (text : String) : String × ℚ :=
  if text.data = [] then ("Other", 0)
  else
    match pyMaxBySnd (category_scores (lowerL text.data)) with
    | none => ("Other", 0)
    | some p => (p.1, confOf p.2 (kwListOf p.1).length)

/-- Embedding of `LLMClassifier.classify_with_openai`. The completion
outcome is a parameter: `some r` is a successful API response with content
`r`, `none` is any raised exception (the `except` branch falls back to the
keyword classifier). On success the code returns the stripped response
text verbatim with confidence 0.9. -/
def classify_with_openai (response : Option String) (text : String) :
    String × ℚ :=
  match response with
  | some r => (⟨pyStrip r.data⟩, 9 / 10)
  | none => classify_with_keywords text

/-- Embedding of `LLMClassifier.classify_text`. `mode = none` is keyword
mode (`use_openai` false or client missing); `mode = some response` is
delegated mode with the given completion outcome. The guard
`not text or len(text.strip()) < 10` is equivalent to the stripped length
being below 10. -/
def classify_text (mode : Option (Option String)) (text : String) :
    String × ℚ :=
  if (pyStrip text.data).length < 10 then ("Other", 0)
  else
    match mode with
    | some response => classify_with_openai response text
    | none => classify_with_keywords text

/-- Fixed category set for text named by the spec. -/
def textCategorySet : List String :=
  ["Pin Definitions", "Programming Instructions", "Component Descriptions",
   "Troubleshooting Tips", "Other"]

/-- Scoring rule as worded by claim C1: 2 points for a word match PLUS
1 point for a substring match, double counting allowed when both fire. -/
def claimC1score (kws : List String) (t : List Char) : Nat :=
  kws.foldl
    (fun s kw =>
      s + (if wordMatch kw.data t then 2 else 0) +
        (if substrMatch kw.data t then 1 else 0)) 0

/-- Keyword classification as worded by claim C1 (double-counting scores,
everything else as in the code). -/
def claimC1classify (text : String) : String × ℚ :=
  if text.data = [] then ("Other", 0)
  else
    match pyMaxBySnd ((keyword_categories.map
      (fun p => (p.1, claimC1score p.2 (lowerL text.data)))).filter
      (fun p => 0 < p.2)) with
    | none => ("Other", 0)
    | some p => (p.1, confOf p.2 (kwListOf p.1).length)

/-- Largest score occurring in a score list (0 for the empty list). -/
def listMaxSnd (l : List (String × Nat)) : Nat :=
  (l.map Prod.snd).foldr max 0

/-- Keyword classification as worded by the amended claim C1: each keyword
contributes 2 points on a word-boundary match and otherwise 1 point on a
substring match (never both); the winner is the first category in
declaration order whose score equals the maximal score, provided that
maximum is positive; confidence is the capped ratio. -/
def amendedC1classify (text : String) : String × ℚ :=
  if text.data = [] then ("Other", 0)
  else if listMaxSnd (keyword_categories.map
      (fun p => (p.1, keywordScore p.2 (lowerL text.data)))) = 0 then
    ("Other", 0)
  else
    match (keyword_categories.map
        (fun p => (p.1, keywordScore p.2 (lowerL text.data)))).find?
        (fun p => p.2 = listMaxSnd (keyword_categories.map
          (fun q => (q.1, keywordScore q.2 (lowerL text.data))))) with
    | none => ("Other", 0)
    | some p => (p.1, confOf p.2 (kwListOf p.1).length)

/-- Category keyword lists of `ImageClassifier.__init__`, in declaration
order. -/
def image_categories : List (String × List String) :=
  [("pinouts", ["pinout", "diagram", "pin", "layout", "schematic"]),
   ("tutorials", ["tutorial", "step", "guide", "instruction", "howto"]),
   ("components", ["component", "part", "sensor", "module", "board"]),
   ("circuits", ["circuit", "wiring", "connection", "breadboard"]),
   ("other", [])]

/-- Embedding of `ImageClassifier.classify_by_filename`: first category in
declaration order with a keyword occurring in the lower-cased filename. -/
def classify_by_filename (filename : String) : String :=
  let fl := lowerL filename.data
  match image_categories.find?
      (fun p => p.2.any (fun kw => substrMatch kw.data fl)) with
  | some p => p.1
  | none => "other"

/-- Raw data of a successfully decoded image: pixel dimensions and the
file size in bytes. -/
structure ImgData where
  width : Nat
  height : Nat
  sizeBytes : Nat
deriving DecidableEq

/-- Feature dictionary built by `ImageClassifier.extract_features`; the
field `aspectWH` models the aspect-ratio entry (width over height, or 0
for a zero height). -/
structure Features where
  width : Nat
  height : Nat
  aspectWH : ℚ
  size_kb : ℚ
  is_wide : Bool
  likely_pinout : Bool

/-- Embedding of `ImageClassifier.extract_features`: `none` in, `none` out
models the `except` branch returning `None` on a decode failure. -/
def extract_features (d : Option ImgData) : Option Features :=
  d.map (fun i =>
    { width := i.width
      height := i.height
      aspectWH := if 0 < i.height then (i.width : ℚ) / i.height else 0
      size_kb := (i.sizeBytes : ℚ) / 1024
      is_wide := decide (i.height < i.width) && decide (800 < i.width)
      likely_pinout := decide (i.height < i.width) && decide (800 < i.width) })

/-- Embedding of `ImageClassifier.classify_by_features`. -/
def classify_by_features (f : Option Features) : String :=
  match f with
  | none => "other"
  | some f =>
    if f.likely_pinout then ("pinouts")
    else if (4 / 5 : ℚ) < f.aspectWH ∧ f.aspectWH < 6 / 5 ∧
        f.size_kb < 500 then ("components")
    else if (f.height : ℚ) * (3 / 2) < f.width then ("tutorials")
    else ("other")

/-- Result record of `ImageClassifier.classify_image`. -/
structure ImgResult where
  category : String
  confidence : ℚ
  features : Option Features
  method : String

/-- Embedding of `ImageClassifier.classify_image`; the decode outcome of
the file is passed as `d`. -/
def classify_image (filename : String) (d : Option ImgData) : ImgResult :=
  let byName := classify_by_filename filename
  let feats := extract_features d
  if byName ≠ "other" then
    { category := byName, confidence := 4 / 5, features := feats
      method := "filename" }
  else
    { category := classify_by_features feats, confidence := 3 / 5
      features := feats, method := "features" }

/-- Feature rules as worded by claim C4, applied to a decoded image. -/
def claimC4rules (i : ImgData) : String :=
  let ar : ℚ := if 0 < i.height then (i.width : ℚ) / i.height else 0
  let kb : ℚ := (i.sizeBytes : ℚ) / 1024
  if i.height < i.width ∧ 800 < i.width then ("pinouts")
  else if (4 / 5 : ℚ) < ar ∧ ar < 6 / 5 ∧ kb < 500 then ("components")
  else if (i.height : ℚ) * (3 / 2) < (i.width : ℚ) then ("tutorials")
  else ("other")

/-- Decimal digit character. -/
def digitChar (d : Nat) : Char := Char.ofNat (48 + d)

/-- Little-endian decimal digits of `n`, with explicit fuel (fuel `n`
suffices for every positive `n`). -/
def toDigitsRev : Nat → Nat → List Nat
  | 0, _ => []
  | f + 1, n => if n = 0 then [] else n % 10 :: toDigitsRev f (n / 10)

/-- Value of a little-endian digit list (left inverse of `toDigitsRev`). -/
def parseRev : List Nat → Nat
  | [] => 0
  | d :: ds => d + 10 * parseRev ds

/-- Decimal rendering of a natural number, as Python `str`/f-strings
render the loop counter. -/
def natRepr (n : Nat) : String :=
  if n = 0 then ("0") else ⟨((toDigitsRev n n).map digitChar).reverse⟩

/-- Candidate destination names tried by the collision loop of
`ImageClassifier.organize_images`: the original name first, then
`stem_1`, `stem_2`, ... before the extension. -/
def cand (stem ext : String) : Nat → String
  | 0 => stem ++ ext
  | k + 1 => stem ++ "_" ++ natRepr (k + 1) ++ ext

/-- Fuel-bounded embedding of the `while dest_path.exists()` loop: try the
candidates in order and return the first one not yet taken. -/
def scanFree (taken : Finset String) (stem ext : String) :
    Nat → Nat → Option String
  | 0, _ => none
  | f + 1, k =>
    if cand stem ext k ∈ taken then scanFree taken stem ext f (k + 1)
    else some (cand stem ext k)

/-- Destination name chosen for a file: the first free candidate. Fuel
`taken.card + 2` always suffices (proved below), so the default value of
`getD` is never returned. -/
def destName (taken : Finset String) (stem ext : String) : String :=
  (scanFree taken stem ext (taken.card + 2) 0).getD (cand stem ext 0)

/-- File to organize: name parts (Python `Path.stem` and `Path.suffix`,
with `name = stem + suffix`) and the decode outcome of the image data. -/
structure FileEntry where
  stem : String
  ext : String
  img : Option ImgData

/-- Filesystem state seen by `organize_images`: the set of source files
(never written) and the set of (category directory, filename) pairs
already present under `classified_images`. -/
structure OrgState where
  sources : Finset String
  dest : Finset (String × String)

/-- Names already present in one category directory. -/
def namesIn (dest : Finset (String × String)) (catg : String) :
    Finset String :=
  (dest.filter (fun p => p.1 = catg)).image (fun p => p.2)

/-- Per-file body of the organize loop: classify, pick a collision-free
destination name, and copy (`shutil.copy2` writes the destination and
leaves the source untouched). Returns the new state and the written
(category, filename) pair. -/
def orgStep (st : OrgState) (f : FileEntry) :
    OrgState × (String × String) :=
  let catg := (classify_image (f.stem ++ f.ext) f.img).category
  let nm := destName (namesIn st.dest catg) f.stem f.ext
  (⟨st.sources, insert (catg, nm) st.dest⟩, (catg, nm))

/-- Embedding of the batch loop of `ImageClassifier.organize_images`:
process each found image in order, returning the final filesystem state
and the list of written (category, filename) pairs, one per input file. -/
def organize_images (st : OrgState) : List FileEntry →
    OrgState × List (String × String)
  | [] => (st, [])
  | f :: fs =>
    let r := orgStep st f
    let rest := organize_images r.1 fs
    (rest.1, r.2 :: rest.2)

/-- Projected row of a step/guide column selection (string cells). -/
abbrev Row := List String

/-- Model of pandas `DataFrame.drop_duplicates()` followed by
`iterrows()` on a frame whose index is the contiguous range 0..n-1 (as
produced by `pd.concat(..., ignore_index=True)`): keep the first
occurrence of each distinct row, paired with its original index. -/
def dedupWithIndex {α : Type} [DecidableEq α] (l : List α) :
    List (Nat × α) :=
  l.enum.filter (fun p => !((l.take p.1).any (fun b => decide (b = p.2))))

/-- Step record assembled by `DataCleaner._extract_steps` (the timestamp
field is omitted). -/
structure StepRec where
  StepID : Nat
  GuideID : Nat
  StepNumber : Nat
  Description : String
deriving DecidableEq

/-- Description of a step row: `str(row.iloc[0] if len(row) > 0 else
f"Step {step_num + 1}")`. -/
def stepDesc (r : Row) (num : Nat) : String :=
  match r with
  | [] => "Step " ++ natRepr num
  | d :: _ => d

/-- Inner loop of `_extract_steps` for one guide: append one step per
deduplicated row, with `StepID = len(Steps) + 1` at the time of the
append and `StepNumber = step_num + 1` from the frame index. -/
def appendSteps (g : Nat) (acc : List StepRec) :
    List (Nat × Row) → List StepRec
  | [] => acc
  | p :: ps =>
    appendSteps g
      (acc ++ [{ StepID := acc.length + 1, GuideID := g
                 StepNumber := p.1 + 1
                 Description := stepDesc p.2 (p.1 + 1) }]) ps

/-- Outer loop of `_extract_steps` over `enumerate(Guides, 1)`. -/
def extractStepsAux (stepsD : List (Nat × Row)) (acc : List StepRec) :
    List Nat → List StepRec
  | [] => acc
  | g :: gs => extractStepsAux stepsD (appendSteps g acc stepsD) gs

/-- Embedding of `DataCleaner._extract_steps`: `nGuides` is the number of
previously extracted guides, `raw` the step-column row projection of the
concatenated input frame. -/
def extract_steps (nGuides : Nat) (raw : List Row) : List StepRec :=
  extractStepsAux (dedupWithIndex raw) [] ((List.range nGuides).map (· + 1))

/-- StepNumber sequence of one guide, in emission order. -/
def stepNumbersOfGuide (steps : List StepRec) (g : Nat) : List Nat :=
  (steps.filter (fun s => s.GuideID = g)).map (fun s => s.StepNumber)

/-- Closed form of the inner step loop: the block of steps emitted for
guide `g` when `base` steps were already emitted. -/
def stepsSeg (g base : Nat) : List (Nat × Row) → List StepRec
  | [] => []
  | p :: ps =>
    { StepID := base + 1, GuideID := g, StepNumber := p.1 + 1
      Description := stepDesc p.2 (p.1 + 1) } :: stepsSeg g (base + 1) ps

/-- Closed form of the outer loop: concatenated per-guide blocks. -/
def guideSegs (stepsD : List (Nat × Row)) (base : Nat) :
    List Nat → List StepRec
  | [] => []
  | g :: gs =>
    stepsSeg g base stepsD ++
      guideSegs stepsD (base + stepsD.length) gs

/-- Single-quote character, kept out of character-literal syntax. -/
def quoteChar : Char := Char.ofNat 39

/-- Character-level model of the Python replace call that doubles each
single quote, as used on the SQL Description fields. -/
def escQ : List Char → List Char
  | [] => []
  | c :: t => if c = quoteChar then c :: c :: escQ t else c :: escQ t

/-- SQL single-quote escaping on strings. -/
def esc (s : String) : String := ⟨escQ s.data⟩

/-- Inverse transformation (undoubling each doubled quote) used to state
that the escaping round trips. -/
def unescQ : List Char → List Char
  | [] => []
  | [c] => [c]
  | c :: c' :: t =>
    if c = quoteChar ∧ c' = quoteChar then c :: unescQ t
    else c :: unescQ (c' :: t)

/-- Device record produced by the mapper (timestamp omitted). -/
structure DeviceRec where
  DeviceName : String
  DeviceType : String
  ImageURL : Option String
deriving DecidableEq

/-- Component record produced by the mapper (timestamp omitted). -/
structure ComponentRec where
  DeviceID : Nat
  ComponentName : String
  Description : String
deriving DecidableEq

/-- Guide record produced by the mapper (timestamp omitted). -/
structure GuideRec where
  DeviceID : Nat
  Title : String
  DateCreated : String
deriving DecidableEq

/-- The four mapped collections held in `schema_mapping`. -/
structure SchemaMapping where
  Devices : List DeviceRec
  Components : List ComponentRec
  Guides : List GuideRec
  Steps : List StepRec

/-- Rendering of the optional image URL: Python falsiness maps `None` and
the empty string to the SQL NULL literal. -/
def imageUrlSql (u : Option String) : String :=
  match u with
  | none => "NULL"
  | some s => if s = "" then ("NULL") else ("\x27") ++ s ++ "\x27"

/-- INSERT statement for one device, as the f-string in
`DataCleaner.generate_sql_inserts` builds it (no escaping applied). -/
def deviceSql (d : DeviceRec) : String :=
  "INSERT INTO Devices (DeviceName, DeviceType, ImageURL) \nVALUES (\x27" ++
    d.DeviceName ++ "\x27, \x27" ++ d.DeviceType ++ "\x27, " ++
    imageUrlSql d.ImageURL ++ ");"

/-- INSERT statement for one component: the description is escaped, the
component name is not. -/
def componentSql (c : ComponentRec) : String :=
  "INSERT INTO Components (DeviceID, ComponentName, Description) \nVALUES (" ++
    natRepr c.DeviceID ++ ", \x27" ++ c.ComponentName ++ "\x27, \x27" ++
    esc c.Description ++ "\x27);"

/-- INSERT statement for one guide: the title is interpolated raw. -/
def guideSql (g : GuideRec) : String :=
  "INSERT INTO Guides (DeviceID, Title, DateCreated) \nVALUES (" ++
    natRepr g.DeviceID ++ ", \x27" ++ g.Title ++ "\x27, \x27" ++
    g.DateCreated ++ "\x27);"

/-- INSERT statement for one step: the description is escaped. -/
def stepSql (s : StepRec) : String :=
  "INSERT INTO Steps (GuideID, StepNumber, Description) \nVALUES (" ++
    natRepr s.GuideID ++ ", " ++ natRepr s.StepNumber ++ ", \x27" ++
    esc s.Description ++ "\x27);"

/-- Embedding of `DataCleaner.generate_sql_inserts`: the emitted list of
section headers and INSERT statements, in order. -/
def generate_sql_inserts (m : SchemaMapping) : List String :=
  ["-- DEVICES\n"] ++ m.Devices.map deviceSql ++
  ["\n-- COMPONENTS\n"] ++ m.Components.map componentSql ++
  ["\n-- GUIDES\n"] ++ m.Guides.map guideSql ++
  ["\n-- STEPS\n"] ++ m.Steps.map stepSql

/-- Recogniser for INSERT statements among the emitted lines. -/
def isInsertStmt (s : String) : Bool :=
  decide (s.data.take 6 = "INSERT".data)

/-- Number of INSERT statements in an emitted list. -/
def countInserts (l : List String) : Nat := (l.filter isInsertStmt).length

/-- Guide INSERT statement as worded by claim C6, with the title escaped
like the description fields. -/
def claimC6guideSql (g : GuideRec) : String :=
  "INSERT INTO Guides (DeviceID, Title, DateCreated) \nVALUES (" ++
    natRepr g.DeviceID ++ ", \x27" ++ esc g.Title ++ "\x27, \x27" ++
    g.DateCreated ++ "\x27);"

/-- Input record of `compare_categories`: a JSON object with an optional
`category` field, or a non-object entry (skipped by the extraction). -/
inductive RawItem
  | dict (category : Option String)
  | nondict
deriving DecidableEq

/-- Category extraction loop: objects contribute
`item.get("category", "Unknown")`, other entries are skipped. -/
def catsOfData (data : List RawItem) : List String :=
  data.flatMap (fun it =>
    match it with
    | .dict c => [c.getD ("Unknown")]
    | .nondict => [])

/-- Distinct categories in first-occurrence order (the key order of a
`collections.Counter`). -/
def dedupFirst (l : List String) : List String :=
  (dedupWithIndex l).map Prod.snd

/-- Counter of a category list, in first-occurrence order. -/
def countsList (cats : List String) : List (String × Nat) :=
  (dedupFirst cats).map (fun c => (c, cats.count c))

/-- Percentage `count / total * 100` rendered to one decimal place, as the
f-string `f"{(count/len(data))*100:.1f}%"` renders it. Computed exactly:
the first decimal is obtained by half-up rounding of the exact rational
(the binary float of the source differs only on exact-tie inputs). -/
def fmtPct (count total : Nat) : String :=
  let n10 := (2000 * count + total) / (2 * total)
  natRepr (n10 / 10) ++ "." ++ natRepr (n10 % 10) ++ "%"

/-- Comparison report assembled by `DataComparer.compare_categories`. The
three category-set fields are built by Python set operations, so they are
modelled as finite sets (the JSON list order of a Python set is
unspecified). -/
structure ComparisonResult where
  scraper_total : Nat
  scraper_counts : List (String × Nat)
  scraper_distribution : List (String × String)
  llm_total : Nat
  llm_counts : List (String × Nat)
  llm_distribution : List (String × String)
  common_categories : Finset String
  unique_to_scraper : Finset String
  unique_to_llm : Finset String
  total_overlap : Nat

/-- Embedding of `DataComparer.compare_categories` on already loaded
data. -/
def compare_categories (scraper_data llm_data : List RawItem) :
    ComparisonResult :=
  let sc := catsOfData scraper_data
  let lc := catsOfData llm_data
  { scraper_total := scraper_data.length
    scraper_counts := countsList sc
    scraper_distribution :=
      (countsList sc).map (fun p => (p.1, fmtPct p.2 scraper_data.length))
    llm_total := llm_data.length
    llm_counts := countsList lc
    llm_distribution :=
      (countsList lc).map (fun p => (p.1, fmtPct p.2 llm_data.length))
    common_categories := sc.toFinset ∩ lc.toFinset
    unique_to_scraper := sc.toFinset \ lc.toFinset
    unique_to_llm := lc.toFinset \ sc.toFinset
    total_overlap := (sc.toFinset ∩ lc.toFinset).card }

/-! ## Basic facts about the keyword classifier -/

lemma pyMaxBySnd_mem : ∀ {l : List (String × Nat)} {p : String × Nat},
    pyMaxBySnd l = some p → p ∈ l := by
  intro l
  induction l with
  | nil => intro p h; simp [pyMaxBySnd] at h
  | cons q ps ih =>
    intro p h
    rw [pyMaxBySnd] at h
    cases hre : pyMaxBySnd ps with
    | none => rw [hre] at h; simp at h; simp [h]
    | some q' =>
      rw [hre] at h
      by_cases hgt : q'.2 > q.2
      · simp [hgt] at h; exact List.mem_cons_of_mem _ (h ▸ ih hre)
      · simp [hgt] at h; simp [h]

lemma category_scores_mem {t : List Char} {p : String × Nat}
    (h : p ∈ category_scores t) :
    p.1 ∈ ["Pin Definitions", "Programming Instructions",
      "Component Descriptions", "Troubleshooting Tips"] ∧
    p.2 = keywordScore (kwListOf p.1) t ∧ 0 < p.2 := by
  rw [category_scores, List.mem_filter] at h
  obtain ⟨hm, hpos⟩ := h
  rw [List.mem_map] at hm
  obtain ⟨q, hq, rfl⟩ := hm
  simp only [decide_eq_true_eq] at hpos
  simp only [keyword_categories, List.mem_cons, List.not_mem_nil,
    or_false] at hq
  rcases hq with rfl | rfl | rfl | rfl <;> exact ⟨by simp, rfl, hpos⟩

lemma classify_with_keywords_mem (text : String) :
    (classify_with_keywords text).1 ∈ textCategorySet := by
  rw [classify_with_keywords]
  by_cases he : text.data = []
  · simp [he, textCategorySet]
  · rw [if_neg he]
    cases hp : pyMaxBySnd (category_scores (lowerL text.data)) with
    | none => simp [textCategorySet]
    | some p =>
      have hmem := (category_scores_mem (pyMaxBySnd_mem hp)).1
      simp only [List.mem_cons, List.mem_singleton] at hmem
      simp only [textCategorySet, List.mem_cons, List.mem_singleton]
      tauto

/-! ## Claim C5 -/

/-- Claim C5: for every text whose stripped length is below 10 characters
(the empty text included), `classify_text` returns `("Other", 0.0)` in
keyword mode and in every delegated-mode configuration. -/
theorem C5_short_text_yields_other (mode : Option (Option String))
    (text : String) (h : (pyStrip text.data).length < 10) :
    classify_text mode text = ("Other", 0) := by
  simp [classify_text, h]

/-- Witness for C5 at the concrete two-character input in a delegated
configuration. -/
theorem C5_short_text_yields_other_witness :
    (pyStrip ("hi").data).length < 10 ∧
    classify_text (some (some ("Pin Definitions"))) "hi" = ("Other", 0) :=
  ⟨by decide, C5_short_text_yields_other (some (some ("Pin Definitions")))
    "hi" (by decide)⟩

/-! ## Claim C3 -/

/-- Counterexample to claim C3 as stated: a decode failure (modelled by
`none` image data) on a file whose name matches no category keyword is
classified `"other"` with confidence 0.6 and absent features — not with
confidence 0.0 as the claim requires. -/
theorem C3_counterexample :
    (classify_image ("zzz.qqq") none).category = "other" ∧
    (classify_image ("zzz.qqq") none).features = none ∧
    (classify_image ("zzz.qqq") none).confidence ≠ 0 := by
  have hfn : classify_by_filename ("zzz.qqq") = "other" := by decide
  refine ⟨?_, ?_, ?_⟩ <;>
    simp [classify_image, hfn, extract_features, classify_by_features]

/-- Amended claim C3: on a decode failure the features are absent and the
batch continues (one result entry per input file, none aborts the run);
the classification result is the filename-based category with confidence
0.8 when a filename keyword matches, and otherwise `"other"` with
confidence 0.6 — not 0.0. -/
theorem C3_decode_failure_amended :
    (∀ fn, classify_by_filename fn = "other" →
      classify_image fn none =
        { category := "other", confidence := 3 / 5, features := none
          method := "features" }) ∧
    (∀ fn, classify_by_filename fn ≠ "other" →
      classify_image fn none =
        { category := classify_by_filename fn, confidence := 4 / 5
          features := none, method := "filename" }) ∧
    (∀ st fs, (organize_images st fs).2.length = fs.length) := by
  refine ⟨?_, ?_, ?_⟩
  · intro fn h
    simp [classify_image, h, extract_features, classify_by_features]
  · intro fn h; simp [classify_image, h, extract_features]
  · intro st fs
    induction fs generalizing st with
    | nil => rfl
    | cons f fs ih => simp [organize_images, ih]

/-- Witness for the amended claim C3 at a concrete unmatched filename and
a concrete one-file batch whose decode fails. -/
theorem C3_decode_failure_amended_witness :
    classify_by_filename ("zzz.qqq") = "other" ∧
    classify_image ("zzz.qqq") none =
      { category := "other", confidence := 3 / 5, features := none
        method := "features" } ∧
    (organize_images ⟨∅, ∅⟩ [⟨"zzz", ".qqq", none⟩]).2.length = 1 :=
  ⟨by decide, C3_decode_failure_amended.1 ("zzz.qqq") (by decide),
    C3_decode_failure_amended.2.2 ⟨∅, ∅⟩ [⟨"zzz", ".qqq", none⟩]⟩

/-! ## Claim C4 -/

lemma classify_by_features_eq_claim (i : ImgData) :
    classify_by_features (extract_features (some i)) = claimC4rules i := by
  simp only [extract_features, Option.map, classify_by_features,
    claimC4rules, Bool.and_eq_true, decide_eq_true_eq]

/-- Claim C4: for a successfully decoded image whose filename matches no
category keyword, the result applies the feature rules in the claimed
order at confidence 0.6; in particular a 1000×400 image (no filename
match) is `"pinouts"`, and a square 100KB image is `"components"`. -/
theorem C4_feature_rules (fn : String) (i : ImgData)
    (h : classify_by_filename fn = "other") :
    classify_image fn (some i) =
      { category := claimC4rules i, confidence := 3 / 5
        features := extract_features (some i), method := "features" } ∧
    (classify_image ("zzz.qqq") (some ⟨1000, 400, 102400⟩)).category =
      "pinouts" ∧
    (classify_image ("zzz.qqq") (some ⟨400, 400, 102400⟩)).category =
      "components" := by
  have hz : classify_by_filename ("zzz.qqq") = "other" := by decide
  refine ⟨?_, ?_, ?_⟩
  · simp [classify_image, h, classify_by_features_eq_claim]
  · simp only [classify_image, hz, ne_eq, not_true_eq_false, if_false,
      classify_by_features_eq_claim]
    rw [claimC4rules]
    norm_num
  · simp only [classify_image, hz, ne_eq, not_true_eq_false, if_false,
      classify_by_features_eq_claim]
    rw [claimC4rules]
    norm_num

/-- Witness for C4 at a concrete unmatched filename and the 1000×400
image. -/
theorem C4_feature_rules_witness :
    classify_by_filename ("zzz.qqq") = "other" ∧
    (classify_image ("zzz.qqq") (some ⟨1000, 400, 102400⟩)).category =
      "pinouts" :=
  ⟨by decide, (C4_feature_rules ("zzz.qqq") ⟨1000, 400, 102400⟩
    (by decide)).2.1⟩

/-! ## Claim C7 -/

/-- Counterexample to claim C7 as stated: in delegated mode the category
returned is the stripped completion response verbatim, so a response
outside the fixed set (here `"banana"`) is surfaced unchanged for a text
of stripped length at least 10. -/
theorem C7_counterexample :
    10 ≤ (pyStrip ("this text is long enough").data).length ∧
    (classify_text (some (some ("banana"))) "this text is long enough").1 ∉
      textCategorySet := by
  exact ⟨by decide, by decide⟩

/-- Amended claim C7: keyword mode and the delegated-failure fallback
always return a category from the fixed set, but a successful delegated
call returns the stripped completion text verbatim (confidence 0.9), so
for inputs of stripped length at least 10 the invariant holds only when
the external service answers with a category name. -/
theorem C7_category_set_amended (text r : String)
    (h : 10 ≤ (pyStrip text.data).length) :
    (classify_text none text).1 ∈ textCategorySet ∧
    (classify_text (some none) text).1 ∈ textCategorySet ∧
    classify_text (some (some r)) text = (⟨pyStrip r.data⟩, 9 / 10) := by
  have hng : ¬(pyStrip text.data).length < 10 := Nat.not_lt.2 h
  refine ⟨?_, ?_, ?_⟩
  · simp only [classify_text, hng, if_false]
    exact classify_with_keywords_mem text
  · simp only [classify_text, hng, if_false, classify_with_openai]
    exact classify_with_keywords_mem text
  · simp [classify_text, hng, classify_with_openai]

/-- Witness for the amended claim C7 at a concrete long text; the
delegated result is the verbatim response. -/
theorem C7_category_set_amended_witness :
    10 ≤ (pyStrip ("pinout diagram gpio analog").data).length ∧
    (classify_text none ("pinout diagram gpio analog")).1 ∈ textCategorySet ∧
    classify_text (some (some ("banana"))) "pinout diagram gpio analog" =
      ("banana", 9 / 10) := by
  have h := C7_category_set_amended ("pinout diagram gpio analog") "banana"
    (by decide)
  exact ⟨by decide, h.1, by rw [h.2.2]; exact Prod.ext (by decide) rfl⟩

/-! ## Machinery for claims C1 and C10 -/

lemma pyMaxBySnd_eq_none_iff {l : List (String × Nat)} :
    pyMaxBySnd l = none ↔ l = [] := by
  cases l with
  | nil => simp [pyMaxBySnd]
  | cons q ps =>
    simp only [pyMaxBySnd]
    cases pyMaxBySnd ps with
    | none => simp
    | some q' =>
      by_cases hgt : q'.2 > q.2 <;> simp [hgt]

lemma snd_le_listMaxSnd : ∀ {l : List (String × Nat)} {p : String × Nat},
    p ∈ l → p.2 ≤ listMaxSnd l := by
  intro l
  induction l with
  | nil => intro p h; cases h
  | cons q ps ih =>
    intro p h
    have : listMaxSnd (q :: ps) = max q.2 (listMaxSnd ps) := rfl
    rw [this]
    rcases List.mem_cons.1 h with rfl | hmem
    · exact le_max_left _ _
    · exact le_trans (ih hmem) (le_max_right _ _)

lemma listMaxSnd_attained : ∀ {l : List (String × Nat)},
    0 < listMaxSnd l → ∃ p ∈ l, p.2 = listMaxSnd l := by
  intro l
  induction l with
  | nil => intro h; simp [listMaxSnd] at h
  | cons q ps ih =>
    intro h
    have hc : listMaxSnd (q :: ps) = max q.2 (listMaxSnd ps) := rfl
    by_cases hq : listMaxSnd ps ≤ q.2
    · exact ⟨q, List.mem_cons_self _ _, by rw [hc, max_eq_left hq]⟩
    · push_neg at hq
      have hmx : listMaxSnd (q :: ps) = listMaxSnd ps := by
        rw [hc, max_eq_right hq.le]
      obtain ⟨p, hp, hpe⟩ := ih (by rw [hmx] at h; exact h)
      exact ⟨p, List.mem_cons_of_mem _ hp, by rw [hmx, hpe]⟩

lemma listMaxSnd_zero_filter {l : List (String × Nat)}
    (h : listMaxSnd l = 0) : l.filter (fun p => 0 < p.2) = [] := by
  rw [List.filter_eq_nil_iff]
  intro p hp
  have := snd_le_listMaxSnd hp
  rw [h, Nat.le_zero] at this
  simp [this]

lemma pyMaxBySnd_cons_of_ge {q : String × Nat} {l : List (String × Nat)}
    (h : ∀ p ∈ l, p.2 ≤ q.2) : pyMaxBySnd (q :: l) = some q := by
  rw [pyMaxBySnd]
  cases hre : pyMaxBySnd l with
  | none => rfl
  | some q' =>
    have hle := h q' (pyMaxBySnd_mem hre)
    show (if q'.2 > q.2 then some q' else some q) = some q
    rw [if_neg (by omega)]

lemma pyMax_filter_eq_find :
    ∀ {l : List (String × Nat)}, 0 < listMaxSnd l →
      pyMaxBySnd (l.filter (fun p => 0 < p.2)) =
        l.find? (fun p => p.2 = listMaxSnd l) := by
  intro l
  induction l with
  | nil => intro h; simp [listMaxSnd] at h
  | cons q ps ih =>
    intro h
    have hc : listMaxSnd (q :: ps) = max q.2 (listMaxSnd ps) := rfl
    by_cases hq : listMaxSnd ps ≤ q.2
    · have hqm : listMaxSnd (q :: ps) = q.2 := by rw [hc, max_eq_left hq]
      have hq0 : 0 < q.2 := by rw [← hqm]; exact h
      rw [List.filter_cons_of_pos (by simpa using hq0),
        List.find?_cons_of_pos _ (by simp [hqm])]
      refine pyMaxBySnd_cons_of_ge ?_
      intro p hp
      exact le_trans (snd_le_listMaxSnd (List.mem_filter.1 hp).1) hq
    · push_neg at hq
      have hqm : listMaxSnd (q :: ps) = listMaxSnd ps := by
        rw [hc, max_eq_right hq.le]
      have hps : 0 < listMaxSnd ps := lt_of_le_of_lt (Nat.zero_le _) hq
      have hfind := ih hps
      have hfq : decide (q.2 = listMaxSnd (q :: ps)) = false := by
        simp only [hqm, decide_eq_false_iff_not]
        omega
      rw [List.find?_cons, hfq, hqm]
      obtain ⟨p0, hp0m, hp0e⟩ := listMaxSnd_attained hps
      have hisSome : (ps.find? (fun p => p.2 = listMaxSnd ps)).isSome =
          true := by
        rw [List.find?_isSome]
        exact ⟨p0, hp0m, by simp [hp0e]⟩
      obtain ⟨p1, hp1⟩ := Option.isSome_iff_exists.1 hisSome
      by_cases h0 : 0 < q.2
      · rw [List.filter_cons_of_pos (by simpa using h0), pyMaxBySnd,
          hfind, hp1]
        have hp1v : p1.2 = listMaxSnd ps := by
          have := List.find?_some hp1
          simpa using this
        show (if p1.2 > q.2 then some p1 else some q) = some p1
        rw [if_pos (by omega)]
      · rw [List.filter_cons_of_neg (by simpa using h0), hfind]

/-- Amended claim C1: keyword-mode classification scores 2 points per
keyword on a word-boundary match and otherwise 1 point on a substring
match (the two never accumulate on the same keyword — the code uses an
if/elif chain, so there is no double counting); the winner is the first
category in declaration order attaining the maximal positive score, with
confidence `min(score / (2 · #keywords), 1)`; if every score is zero the
result is `("Other", 0.0)`. -/
theorem C1_keyword_scoring_amended (text : String) :
    classify_with_keywords text = amendedC1classify text := by
  by_cases he : text.data = []
  · rw [classify_with_keywords, amendedC1classify, if_pos he, if_pos he]
  · rw [classify_with_keywords, amendedC1classify, if_neg he, if_neg he]
    by_cases hm : listMaxSnd (keyword_categories.map
        (fun p => (p.1, keywordScore p.2 (lowerL text.data)))) = 0
    · rw [if_pos hm]
      have : category_scores (lowerL text.data) = [] := by
        rw [category_scores]
        exact listMaxSnd_zero_filter hm
      rw [this]
      rfl
    · rw [if_neg hm]
      have hpos : 0 < listMaxSnd (keyword_categories.map
          (fun p => (p.1, keywordScore p.2 (lowerL text.data)))) :=
        Nat.pos_of_ne_zero hm
      rw [category_scores, pyMax_filter_eq_find hpos]

lemma confOf_pos {s n : Nat} (hs : 0 < s) (hn : 0 < n) : 0 < confOf s n := by
  rw [confOf]
  refine lt_min ?_ one_pos
  refine div_pos ?_ ?_
  · exact_mod_cast hs
  · positivity

lemma confOf_le_one (s n : Nat) : confOf s n ≤ 1 := min_le_right _ _

/-- Counterexample to claim C1 as stated: on the input
`"pin definitions here"` only the keyword `"pin"` matches (as a whole
word), so the code scores 2 and reports confidence `2/26`; the claimed
double-counting rule scores 3 and would report `3/26`. -/
theorem C1_counterexample :
    classify_with_keywords ("pin definitions here") ≠
      claimC1classify ("pin definitions here") := by
  have h1 : pyMaxBySnd (category_scores
      (lowerL ("pin definitions here").data)) = some ("Pin Definitions", 2) := by
    decide
  have h2 : pyMaxBySnd ((keyword_categories.map (fun p =>
      (p.1, claimC1score p.2 (lowerL ("pin definitions here").data)))).filter
      (fun p => 0 < p.2)) = some ("Pin Definitions", 3) := by
    decide
  have e1 : classify_with_keywords ("pin definitions here") =
      ("Pin Definitions", confOf 2 13) := by
    rw [classify_with_keywords, if_neg (by decide), h1]
    rfl
  have e2 : claimC1classify ("pin definitions here") =
      ("Pin Definitions", confOf 3 13) := by
    rw [claimC1classify, if_neg (by decide), h2]
    rfl
  intro contra
  rw [e1, e2] at contra
  have hsnd : confOf 2 13 = confOf 3 13 := (Prod.ext_iff.1 contra).2
  rw [confOf, confOf, min_eq_left (by norm_num), min_eq_left (by norm_num)]
    at hsnd
  norm_num at hsnd

/-! ## Claim C10 -/

lemma wordMatch_imp_substr {kw t : List Char} (h : wordMatch kw t = true) :
    substrMatch kw t = true := by
  rw [wordMatch, List.any_eq_true] at h
  obtain ⟨i, hi, hcond⟩ := h
  rw [substrMatch, List.any_eq_true]
  refine ⟨i, hi, ?_⟩
  simp only [Bool.and_eq_true] at hcond
  exact hcond.1.1

lemma foldl_add_init (f : Nat → String → Nat)
    (hf : ∀ s kw, f s kw = s + f 0 kw) :
    ∀ (kws : List String) (a : Nat), kws.foldl f a = a + kws.foldl f 0 := by
  intro kws
  induction kws with
  | nil => intro a; simp
  | cons kw kws ih =>
    intro a
    rw [List.foldl_cons, List.foldl_cons, ih (f a kw), ih (f 0 kw), hf a kw]
    omega

lemma keywordScore_cons (kw : String) (kws : List String) (t : List Char) :
    keywordScore (kw :: kws) t =
      (if wordMatch kw.data t then 2
        else if substrMatch kw.data t then 1 else 0) + keywordScore kws t := by
  have hf : ∀ (s : Nat) (w : String),
      (if wordMatch w.data t then s + 2
        else if substrMatch w.data t then s + 1 else s) =
      s + (if wordMatch w.data t then 0 + 2
        else if substrMatch w.data t then 0 + 1 else 0) := by
    intro s w
    by_cases h1 : wordMatch w.data t <;> by_cases h2 : substrMatch w.data t <;>
      simp [h1, h2]
  rw [keywordScore, List.foldl_cons, foldl_add_init _ hf, hf 0 kw]
  rfl

lemma score_pos_iff (kws : List String) (t : List Char) :
    0 < keywordScore kws t ↔
      ∃ kw ∈ kws, substrMatch kw.data t = true := by
  induction kws with
  | nil => simp [keywordScore]
  | cons kw kws ih =>
    rw [keywordScore_cons]
    by_cases h1 : wordMatch kw.data t
    · simp [h1, wordMatch_imp_substr h1]
    · by_cases h2 : substrMatch kw.data t
      · simp [h1, h2]
      · simp [h1, h2, ih]

lemma mem_four_facts {c : String}
    (h : c ∈ ["Pin Definitions", "Programming Instructions",
      "Component Descriptions", "Troubleshooting Tips"]) :
    c ≠ "Other" ∧ 0 < (kwListOf c).length ∧ c ∈ textCategorySet ∧
      (c, kwListOf c) ∈ keyword_categories := by
  simp only [List.mem_cons, List.not_mem_nil, or_false] at h
  rcases h with rfl | rfl | rfl | rfl <;>
    exact ⟨by decide, by decide, by decide, by decide⟩

/-- Claim C10 (implicit): in keyword mode, for inputs of stripped length
at least 10, the classifier returns confidence 0.0 exactly when it
returns category `"Other"`, which happens exactly when no keyword of any
category occurs in the lower-cased text; categories other than `"Other"`
(necessarily one of the four named ones) come with a confidence strictly
positive and at most 1. -/
theorem C10_confidence_zero_iff_other (text : String)
    (h : 10 ≤ (pyStrip text.data).length) :
    ((classify_text none text).2 = 0 ↔
      (classify_text none text).1 = "Other") ∧
    ((classify_text none text).1 = "Other" ↔
      ∀ p ∈ keyword_categories, ∀ kw ∈ p.2,
        substrMatch kw.data (lowerL text.data) = false) ∧
    (classify_text none text).1 ∈ textCategorySet ∧
    ((classify_text none text).1 ≠ "Other" →
      0 < (classify_text none text).2 ∧ (classify_text none text).2 ≤ 1) := by
  have hne : text.data ≠ [] := by
    intro e
    rw [show pyStrip text.data = [] from by rw [e]; rfl] at h
    simp at h
  have hct : classify_text none text = classify_with_keywords text := by
    simp [classify_text, Nat.not_lt.2 h]
  rw [hct]
  cases hp : pyMaxBySnd (category_scores (lowerL text.data)) with
  | none =>
    have hcwk : classify_with_keywords text = ("Other", 0) := by
      rw [classify_with_keywords, if_neg hne, hp]
    have hnil := pyMaxBySnd_eq_none_iff.1 hp
    rw [category_scores, List.filter_eq_nil_iff] at hnil
    rw [hcwk]
    refine ⟨by simp, ?_, by simp [textCategorySet], by simp⟩
    refine iff_of_true rfl ?_
    intro p hp' kw hkw
    have h0 : ¬0 < keywordScore p.2 (lowerL text.data) := by
      have := hnil (p.1, keywordScore p.2 (lowerL text.data))
        (List.mem_map.2 ⟨p, hp', rfl⟩)
      simpa using this
    rw [Bool.eq_false_iff]
    intro hs
    exact h0 ((score_pos_iff p.2 (lowerL text.data)).2 ⟨kw, hkw, hs⟩)
  | some p =>
    have hcwk : classify_with_keywords text =
        (p.1, confOf p.2 (kwListOf p.1).length) := by
      rw [classify_with_keywords, if_neg hne, hp]
    obtain ⟨hfour, hscore, hpos⟩ := category_scores_mem (pyMaxBySnd_mem hp)
    obtain ⟨hnOther, hnlen, hmemSet, hentry⟩ := mem_four_facts hfour
    have hcpos : 0 < confOf p.2 (kwListOf p.1).length := confOf_pos hpos hnlen
    rw [hcwk]
    refine ⟨iff_of_false (by exact hcpos.ne') hnOther,
      iff_of_false hnOther ?_, hmemSet, fun _ => ⟨hcpos, confOf_le_one _ _⟩⟩
    intro hall
    obtain ⟨kw, hkw, hs⟩ := (score_pos_iff (kwListOf p.1)
      (lowerL text.data)).1 (hscore ▸ hpos)
    have := hall (p.1, kwListOf p.1) hentry kw hkw
    rw [hs] at this
    cases this

/-- Witness for C10 at a concrete text with keyword matches. -/
theorem C10_confidence_zero_iff_other_witness :
    10 ≤ (pyStrip ("pinout diagram gpio analog").data).length ∧
    ((classify_text none ("pinout diagram gpio analog")).2 = 0 ↔
      (classify_text none ("pinout diagram gpio analog")).1 = "Other") :=
  ⟨by decide,
    (C10_confidence_zero_iff_other ("pinout diagram gpio analog")
      (by decide)).1⟩

/-! ## Machinery for claim C8: the collision-suffix loop -/

lemma parse_toDigitsRev : ∀ f n, n ≤ f → parseRev (toDigitsRev f n) = n := by
  intro f
  induction f with
  | zero =>
    intro n h
    have : n = 0 := Nat.le_zero.1 h
    subst this
    rfl
  | succ f ih =>
    intro n h
    rw [toDigitsRev]
    by_cases h0 : n = 0
    · subst h0; simp [parseRev]
    · rw [if_neg h0, parseRev, ih (n / 10) ?_]
      · exact Nat.mod_add_div n 10
      · have h1 : n / 10 < n :=
          Nat.div_lt_self (Nat.pos_of_ne_zero h0) (by norm_num)
        omega

lemma toDigitsRev_lt : ∀ f n d, d ∈ toDigitsRev f n → d < 10 := by
  intro f
  induction f with
  | zero => intro n d h; simp [toDigitsRev] at h
  | succ f ih =>
    intro n d h
    rw [toDigitsRev] at h
    by_cases h0 : n = 0
    · rw [if_pos h0] at h; cases h
    · rw [if_neg h0] at h
      rcases List.mem_cons.1 h with rfl | hm
      · exact Nat.mod_lt _ (by norm_num)
      · exact ih _ _ hm

lemma toDigitsRev_ne_nil {f n : Nat} (h0 : 0 < n) (hf : 0 < f) :
    toDigitsRev f n ≠ [] := by
  cases f with
  | zero => omega
  | succ f =>
    rw [toDigitsRev, if_neg (by omega)]
    simp

lemma digitChar_toNat {d : Nat} (h : d < 10) : (digitChar d).toNat = 48 + d := by
  interval_cases d <;> decide

lemma map_digitChar_inj : ∀ {l1 l2 : List Nat}, (∀ d ∈ l1, d < 10) →
    (∀ d ∈ l2, d < 10) → l1.map digitChar = l2.map digitChar → l1 = l2 := by
  intro l1
  induction l1 with
  | nil =>
    intro l2 _ _ h
    cases l2 with
    | nil => rfl
    | cons e l2 => simp at h
  | cons d l ih =>
    intro l2 h1 h2 h
    cases l2 with
    | nil => simp at h
    | cons e l2' =>
      simp only [List.map_cons, List.cons.injEq] at h
      have hd : d = e := by
        have hv := congrArg Char.toNat h.1
        rw [digitChar_toNat (h1 d (List.mem_cons_self _ _)),
          digitChar_toNat (h2 e (List.mem_cons_self _ _))] at hv
        omega
      rw [hd, ih (fun x hx => h1 x (List.mem_cons_of_mem _ hx))
        (fun x hx => h2 x (List.mem_cons_of_mem _ hx)) h.2]

lemma string_data_inj {s t : String} (h : s.data = t.data) : s = t := by
  cases s; cases t; simp_all

lemma natRepr_pos_inj {m n : Nat} (hm : 0 < m) (hn : 0 < n)
    (h : natRepr m = natRepr n) : m = n := by
  rw [natRepr, natRepr, if_neg hm.ne', if_neg hn.ne'] at h
  have hdata : ((toDigitsRev m m).map digitChar).reverse =
      ((toDigitsRev n n).map digitChar).reverse := congrArg String.data h
  have hmap := List.reverse_injective hdata
  have hdig := map_digitChar_inj (fun d hd => toDigitsRev_lt m m d hd)
    (fun d hd => toDigitsRev_lt n n d hd) hmap
  have := congrArg parseRev hdig
  rwa [parse_toDigitsRev m m le_rfl, parse_toDigitsRev n n le_rfl] at this

lemma natRepr_pos_length {n : Nat} (hn : 0 < n) :
    0 < (natRepr n).data.length := by
  rw [natRepr, if_neg hn.ne']
  simp only [List.length_reverse, List.length_map]
  exact List.length_pos.2 (toDigitsRev_ne_nil hn hn)

lemma cand_inj (stem ext : String) : ∀ {j k : Nat},
    cand stem ext j = cand stem ext k → j = k := by
  have hlen : ∀ k : Nat,
      (cand stem ext (k + 1)).data.length =
        stem.data.length + 1 + (natRepr (k + 1)).data.length +
          ext.data.length := by
    intro k
    simp [cand, String.data_append, List.length_append]
    omega
  intro j k h
  match j, k with
  | 0, 0 => rfl
  | 0, k + 1 =>
    exfalso
    have h0 : (cand stem ext 0).data.length =
        stem.data.length + ext.data.length := by
      simp only [cand, String.data_append, List.length_append]
    have := congrArg (fun s => s.data.length) h
    simp only at this
    rw [h0, hlen k] at this
    have := natRepr_pos_length (n := k + 1) (by omega)
    omega
  | j + 1, 0 =>
    exfalso
    have h0 : (cand stem ext 0).data.length =
        stem.data.length + ext.data.length := by
      simp only [cand, String.data_append, List.length_append]
    have := congrArg (fun s => s.data.length) h
    simp only at this
    rw [h0, hlen j] at this
    have := natRepr_pos_length (n := j + 1) (by omega)
    omega
  | j + 1, k + 1 =>
    have hdata := congrArg String.data h
    simp only [cand, String.data_append] at hdata
    have h1 := List.append_cancel_right hdata
    have h2 := List.append_cancel_left h1
    have := natRepr_pos_inj (m := j + 1) (n := k + 1) (by omega) (by omega)
      (string_data_inj h2)
    omega

lemma exists_free_cand (taken : Finset String) (stem ext : String) :
    ∃ k < taken.card + 2, cand stem ext k ∉ taken := by
  by_contra hc
  push_neg at hc
  have hsub : (Finset.range (taken.card + 2)).image (cand stem ext) ⊆
      taken := by
    intro a ha
    rw [Finset.mem_image] at ha
    obtain ⟨k, hk, rfl⟩ := ha
    exact hc k (Finset.mem_range.1 hk)
  have hcard : ((Finset.range (taken.card + 2)).image
      (cand stem ext)).card = taken.card + 2 := by
    rw [Finset.card_image_of_injOn fun a _ b _ hab => cand_inj stem ext hab]
    exact Finset.card_range _
  have := Finset.card_le_card hsub
  omega

lemma scanFree_some_free {taken : Finset String} {stem ext : String} :
    ∀ {f k : Nat} {c : String},
      scanFree taken stem ext f k = some c → c ∉ taken := by
  intro f
  induction f with
  | zero => intro k c h; simp [scanFree] at h
  | succ f ih =>
    intro k c h
    rw [scanFree] at h
    by_cases hm : cand stem ext k ∈ taken
    · rw [if_pos hm] at h
      exact ih h
    · rw [if_neg hm] at h
      cases h
      exact hm

lemma scanFree_none_all {taken : Finset String} {stem ext : String} :
    ∀ {f k : Nat}, scanFree taken stem ext f k = none →
      ∀ j, k ≤ j → j < k + f → cand stem ext j ∈ taken := by
  intro f
  induction f with
  | zero => intro k _ j h1 h2; omega
  | succ f ih =>
    intro k h j h1 h2
    rw [scanFree] at h
    by_cases hm : cand stem ext k ∈ taken
    · rw [if_pos hm] at h
      by_cases hj : j = k
      · exact hj ▸ hm
      · exact ih h j (by omega) (by omega)
    · rw [if_neg hm] at h
      cases h

lemma destName_not_mem (taken : Finset String) (stem ext : String) :
    destName taken stem ext ∉ taken := by
  rw [destName]
  cases hs : scanFree taken stem ext (taken.card + 2) 0 with
  | some c => simpa using scanFree_some_free hs
  | none =>
    exfalso
    obtain ⟨k, hk, hfree⟩ := exists_free_cand taken stem ext
    exact hfree (scanFree_none_all hs k (Nat.zero_le _) (by omega))

lemma organize_images_spec : ∀ (fs : List FileEntry) (st : OrgState),
    (organize_images st fs).1.sources = st.sources ∧
    (organize_images st fs).2.length = fs.length ∧
    (∀ w ∈ (organize_images st fs).2, w ∉ st.dest) ∧
    (organize_images st fs).2.Nodup ∧
    (organize_images st fs).1.dest =
      st.dest ∪ (organize_images st fs).2.toFinset := by
  intro fs
  induction fs with
  | nil =>
    intro st
    exact ⟨rfl, rfl, by simp [organize_images], by simp [organize_images],
      by simp [organize_images]⟩
  | cons f fs ih =>
    intro st
    obtain ⟨ih1, ih2, ih3, ih4, ih5⟩ := ih (orgStep st f).1
    have hstep_src : (orgStep st f).1.sources = st.sources := by
      simp only [orgStep]
    have hstep_dest : (orgStep st f).1.dest =
        insert (orgStep st f).2 st.dest := by
      simp only [orgStep]
    have hw0 : (orgStep st f).2 ∉ st.dest := by
      simp only [orgStep]
      intro hmem
      refine destName_not_mem (namesIn st.dest
        (classify_image (f.stem ++ f.ext) f.img).category) f.stem f.ext ?_
      rw [namesIn, Finset.mem_image]
      exact ⟨_, Finset.mem_filter.2 ⟨hmem, by simp⟩, rfl⟩
    have horg : organize_images st (f :: fs) =
        ((organize_images (orgStep st f).1 fs).1,
          (orgStep st f).2 :: (organize_images (orgStep st f).1 fs).2) := by
      simp only [organize_images]
    rw [horg]
    refine ⟨by simpa [hstep_src] using ih1, by simpa using ih2, ?_, ?_, ?_⟩
    · intro w hw
      rcases List.mem_cons.1 hw with rfl | hw'
      · exact hw0
      · intro hmem
        exact ih3 w hw' (hstep_dest ▸ Finset.mem_insert_of_mem hmem)
    · refine List.Nodup.cons ?_ ih4
      intro hmem
      exact ih3 _ hmem (hstep_dest ▸ Finset.mem_insert_self _ _)
    · rw [ih5, hstep_dest, List.toFinset_cons, Finset.insert_union,
        Finset.union_insert]

/-- Claim C8: each classified source file is copied exactly once and the
source set is untouched; every destination name written by a run is new
(absent from the pre-existing destination contents, and no two writes of
a run collide), so a second run over the same source directory never
overwrites any destination file written by the first run. -/
theorem C8_organize_never_overwrites (st : OrgState)
    (fs1 fs2 : List FileEntry) :
    (organize_images st fs1).1.sources = st.sources ∧
    (organize_images (organize_images st fs1).1 fs2).1.sources =
      st.sources ∧
    (organize_images st fs1).2.length = fs1.length ∧
    (∀ w ∈ (organize_images st fs1).2, w ∉ st.dest) ∧
    (organize_images st fs1).2.Nodup ∧
    (∀ w ∈ (organize_images (organize_images st fs1).1 fs2).2,
      w ∉ (organize_images st fs1).2) := by
  obtain ⟨h1, h2, h3, h4, h5⟩ := organize_images_spec fs1 st
  obtain ⟨g1, g2, g3, g4, g5⟩ :=
    organize_images_spec fs2 (organize_images st fs1).1
  refine ⟨h1, by rw [g1, h1], h2, h3, h4, ?_⟩
  intro w hw hmem
  exact g3 w hw (h5 ▸ Finset.mem_union_right _ (List.mem_toFinset.2 hmem))

/-- Witness for C8: a destination directory already holding `img.png`,
and two successive runs over the same single-file source; the second run
writes `img_2.png`, distinct from the first run output `img_1.png`. -/
theorem C8_organize_never_overwrites_witness :
    ("other", "img_2.png") ∈
      (organize_images
        (organize_images ⟨{"img.png"}, {("other", "img.png")}⟩
          [⟨"img", ".png", none⟩]).1 [⟨"img", ".png", none⟩]).2 ∧
    ("other", "img_2.png") ∉
      (organize_images ⟨{"img.png"}, {("other", "img.png")}⟩
        [⟨"img", ".png", none⟩]).2 :=
  ⟨by decide,
    (C8_organize_never_overwrites ⟨{"img.png"}, {("other", "img.png")}⟩
      [⟨"img", ".png", none⟩] [⟨"img", ".png", none⟩]).2.2.2.2.2
      ("other", "img_2.png") (by decide)⟩

/-! ## Machinery for claim C2: step extraction -/

lemma stepsSeg_length (g : Nat) : ∀ (l : List (Nat × Row)) (base : Nat),
    (stepsSeg g base l).length = l.length := by
  intro l
  induction l with
  | nil => intro base; rfl
  | cons p ps ih => intro base; simp [stepsSeg, ih]

lemma stepsSeg_guideID (g : Nat) : ∀ (l : List (Nat × Row)) (base : Nat)
    (s : StepRec), s ∈ stepsSeg g base l → s.GuideID = g := by
  intro l
  induction l with
  | nil => intro base s h; cases h
  | cons p ps ih =>
    intro base s h
    rcases List.mem_cons.1 h with rfl | hm
    · rfl
    · exact ih (base + 1) s hm

lemma stepsSeg_map_stepNumber (g : Nat) : ∀ (l : List (Nat × Row))
    (base : Nat),
    (stepsSeg g base l).map (fun s => s.StepNumber) =
      l.map (fun p => p.1 + 1) := by
  intro l
  induction l with
  | nil => intro base; rfl
  | cons p ps ih => intro base; simp [stepsSeg, ih]

lemma stepsSeg_map_stepID (g : Nat) : ∀ (l : List (Nat × Row)) (base : Nat),
    (stepsSeg g base l).map (fun s => s.StepID) =
      List.range' (base + 1) l.length := by
  intro l
  induction l with
  | nil => intro base; rfl
  | cons p ps ih =>
    intro base
    rw [stepsSeg, List.map_cons, ih (base + 1), List.length_cons,
      List.range'_succ]

lemma appendSteps_eq (g : Nat) : ∀ (l : List (Nat × Row))
    (acc : List StepRec),
    appendSteps g acc l = acc ++ stepsSeg g acc.length l := by
  intro l
  induction l with
  | nil => intro acc; simp [appendSteps, stepsSeg]
  | cons p ps ih =>
    intro acc
    rw [appendSteps, ih, stepsSeg]
    simp [List.append_assoc, List.length_append]

lemma extractStepsAux_eq (d : List (Nat × Row)) : ∀ (gs : List Nat)
    (acc : List StepRec),
    extractStepsAux d acc gs = acc ++ guideSegs d acc.length gs := by
  intro gs
  induction gs with
  | nil => intro acc; simp [extractStepsAux, guideSegs]
  | cons g gs ih =>
    intro acc
    rw [extractStepsAux, appendSteps_eq, ih, guideSegs]
    simp [List.append_assoc, List.length_append, stepsSeg_length]

lemma extract_steps_eq (n : Nat) (raw : List Row) :
    extract_steps n raw =
      guideSegs (dedupWithIndex raw) 0 ((List.range n).map (· + 1)) := by
  rw [extract_steps, extractStepsAux_eq]
  rfl

lemma guideSegs_length (d : List (Nat × Row)) : ∀ (gs : List Nat)
    (base : Nat), (guideSegs d base gs).length = gs.length * d.length := by
  intro gs
  induction gs with
  | nil => intro base; simp [guideSegs]
  | cons g gs ih =>
    intro base
    rw [guideSegs, List.length_append, stepsSeg_length, ih,
      List.length_cons]
    ring

lemma guideSegs_map_stepID (d : List (Nat × Row)) : ∀ (gs : List Nat)
    (base : Nat),
    (guideSegs d base gs).map (fun s => s.StepID) =
      List.range' (base + 1) (gs.length * d.length) := by
  intro gs
  induction gs with
  | nil => intro base; simp [guideSegs]
  | cons g gs ih =>
    intro base
    rw [guideSegs, List.map_append, stepsSeg_map_stepID, ih,
      List.length_cons]
    have harg : base + d.length + 1 = base + 1 + 1 * d.length := by ring
    rw [harg, List.range'_append]
    congr 1
    ring

lemma stepsSeg_filter_eq (g g' : Nat) (l : List (Nat × Row)) (base : Nat) :
    (stepsSeg g' base l).filter (fun s => s.GuideID = g) =
      if g' = g then stepsSeg g' base l else [] := by
  by_cases h : g' = g
  · rw [if_pos h, List.filter_eq_self.2]
    intro s hs
    simp [stepsSeg_guideID g' l base s hs, h]
  · rw [if_neg h, List.filter_eq_nil_iff.2]
    intro s hs
    simp [stepsSeg_guideID g' l base s hs, h]

lemma guideSegs_filter_not_mem (d : List (Nat × Row)) : ∀ (gs : List Nat)
    (base g : Nat), g ∉ gs →
    (guideSegs d base gs).filter (fun s => s.GuideID = g) = [] := by
  intro gs
  induction gs with
  | nil => intro base g _; rfl
  | cons g0 gs ih =>
    intro base g hg
    rw [guideSegs, List.filter_append, stepsSeg_filter_eq,
      if_neg (fun e : g0 = g => hg (e ▸ List.mem_cons_self g0 gs)),
      ih (base + d.length) g (fun hm => hg (List.mem_cons_of_mem _ hm))]
    rfl

lemma guideSegs_filter_mem (d : List (Nat × Row)) : ∀ (gs : List Nat)
    (base g : Nat), gs.Nodup → g ∈ gs →
    ∃ b, (guideSegs d base gs).filter (fun s => s.GuideID = g) =
      stepsSeg g b d := by
  intro gs
  induction gs with
  | nil => intro base g _ hg; cases hg
  | cons g0 gs ih =>
    intro base g hnd hg
    rw [guideSegs, List.filter_append]
    rcases List.mem_cons.1 hg with rfl | hm
    · rw [stepsSeg_filter_eq, if_pos rfl,
        guideSegs_filter_not_mem d gs _ g (List.nodup_cons.1 hnd).1]
      exact ⟨base, by simp⟩
    · have hne : g0 ≠ g := by
        intro e
        exact (List.nodup_cons.1 hnd).1 (e ▸ hm)
      rw [stepsSeg_filter_eq, if_neg hne]
      obtain ⟨b, hb⟩ := ih (base + d.length) g (List.nodup_cons.1 hnd).2 hm
      exact ⟨b, by simp [hb]⟩

lemma dedupWithIndex_pairwise_fst {α : Type} [DecidableEq α] (l : List α) :
    ((dedupWithIndex l).map Prod.fst).Pairwise (· < ·) := by
  rw [List.pairwise_map]
  refine List.Pairwise.filter _ ?_
  have h1 : (l.enum.map Prod.fst).Pairwise (· < ·) := by
    rw [List.enum_map_fst]
    exact List.pairwise_lt_range _
  exact List.pairwise_map.1 h1

lemma dedupWithIndex_cons_head {α : Type} [DecidableEq α] (a : α)
    (l : List α) :
    ∃ rest, dedupWithIndex (a :: l) = (0, a) :: rest := by
  rw [dedupWithIndex, List.enum_cons, List.filter_cons_of_pos (by simp)]
  exact ⟨_, rfl⟩

lemma dedupWithIndex_nodup_eq {α : Type} [DecidableEq α] {l : List α}
    (h : l.Nodup) : dedupWithIndex l = l.enum := by
  rw [dedupWithIndex, List.filter_eq_self]
  intro p hp
  have hg := List.mem_enum_iff_get?.1 hp
  obtain ⟨hlt, hget⟩ := List.get?_eq_some.1 hg
  simp only [Bool.not_eq_true', List.any_eq_false, decide_eq_true_eq]
  intro b hb heq
  subst heq
  rw [List.mem_take_iff_getElem] at hb
  obtain ⟨i, hi, hieq⟩ := hb
  have hi2 : i < l.length := lt_of_lt_of_le hi (min_le_right _ _)
  have : l.get ⟨i, hi2⟩ = l.get ⟨p.1, hlt⟩ := by
    rw [hget]
    exact hieq
  have := (h.get_inj_iff.1 this)
  have hlt1 : i < p.1 := lt_of_lt_of_le hi (min_le_left _ _)
  rw [Fin.mk.injEq] at this
  omega

lemma mem_guide_list {g n : Nat} :
    g ∈ (List.range n).map (· + 1) ↔ 1 ≤ g ∧ g ≤ n := by
  rw [List.mem_map]
  constructor
  · rintro ⟨a, ha, rfl⟩
    have := List.mem_range.1 ha
    omega
  · rintro ⟨h1, h2⟩
    exact ⟨g - 1, List.mem_range.2 (by omega), by omega⟩

lemma guide_list_nodup (n : Nat) : ((List.range n).map (· + 1)).Nodup :=
  List.Nodup.map (fun a b h => by omega) (List.nodup_range n)

/-! ## Claim C2 -/

/-- Counterexample to claim C2 as stated: on step rows `[a, a, b]` the
pandas index surviving deduplication is `{0, 2}`, so the StepNumbers
within the single guide are `[1, 3]` — not the contiguous `[1, 2]` the
claim requires for inputs with duplicate step rows. -/
theorem C2_counterexample :
    stepNumbersOfGuide (extract_steps 1 [["a"], ["a"], ["b"]]) 1 ≠
      List.range' 1 (dedupWithIndex [["a"], ["a"], ["b"]]).length := by
  decide

/-- Amended claim C2: the emitted steps are the cross product of guides
and deduplicated step rows; StepID is sequential (1, 2, ...) across the
whole output; within each guide the StepNumber sequence is the original
frame index + 1 of each surviving row — strictly increasing and starting
at 1, but contiguous only when the step rows contain no duplicates (a
dropped duplicate leaves a gap, as `drop_duplicates` keeps the original
index labels). -/
theorem C2_steps_amended (n : Nat) (raw : List Row) :
    (extract_steps n raw).length = n * (dedupWithIndex raw).length ∧
    (extract_steps n raw).map (fun s => s.StepID) =
      List.range' 1 (n * (dedupWithIndex raw).length) ∧
    (∀ g, 1 ≤ g → g ≤ n →
      stepNumbersOfGuide (extract_steps n raw) g =
        (dedupWithIndex raw).map (fun p => p.1 + 1)) ∧
    (∀ g, (stepNumbersOfGuide (extract_steps n raw) g).Pairwise (· < ·)) ∧
    (∀ g, 1 ≤ g → g ≤ n → raw ≠ [] →
      (stepNumbersOfGuide (extract_steps n raw) g).head? = some 1) ∧
    (raw.Nodup → ∀ g, 1 ≤ g → g ≤ n →
      stepNumbersOfGuide (extract_steps n raw) g =
        List.range' 1 raw.length) := by
  have hperG : ∀ g, 1 ≤ g → g ≤ n →
      stepNumbersOfGuide (extract_steps n raw) g =
        (dedupWithIndex raw).map (fun p => p.1 + 1) := by
    intro g h1 h2
    rw [stepNumbersOfGuide, extract_steps_eq]
    obtain ⟨b, hb⟩ := guideSegs_filter_mem (dedupWithIndex raw)
      ((List.range n).map (· + 1)) 0 g (guide_list_nodup n)
      (mem_guide_list.2 ⟨h1, h2⟩)
    rw [hb, stepsSeg_map_stepNumber]
  refine ⟨?_, ?_, hperG, ?_, ?_, ?_⟩
  · rw [extract_steps_eq, guideSegs_length, List.length_map,
      List.length_range]
  · rw [extract_steps_eq, guideSegs_map_stepID, List.length_map,
      List.length_range]
  · intro g
    by_cases hmem : 1 ≤ g ∧ g ≤ n
    · rw [hperG g hmem.1 hmem.2]
      have hfst := dedupWithIndex_pairwise_fst raw
      rw [List.pairwise_map] at hfst ⊢
      exact hfst.imp_of_mem (fun _ _ h => by omega)
    · rw [stepNumbersOfGuide, extract_steps_eq,
        guideSegs_filter_not_mem _ _ _ g
          (fun hm => hmem (mem_guide_list.1 hm))]
      exact List.Pairwise.nil
  · intro g h1 h2 hraw
    rw [hperG g h1 h2]
    cases raw with
    | nil => exact absurd rfl hraw
    | cons a l =>
      obtain ⟨rest, hrest⟩ := dedupWithIndex_cons_head a l
      rw [hrest, List.map_cons, List.head?_cons]
  · intro hnd g h1 h2
    rw [hperG g h1 h2, dedupWithIndex_nodup_eq hnd]
    have hm1 : raw.enum.map (fun p => p.1 + 1) =
        (raw.enum.map Prod.fst).map (fun x => x + 1) := by
      rw [List.map_map]
      rfl
    rw [hm1, List.enum_map_fst, List.range'_eq_map_range]
    exact List.map_congr_left (fun a _ => by omega)

/-- Witness for the amended claim C2 on two guides and step rows with a
duplicate: six steps, StepIDs 1..6, and per-guide StepNumbers `[1, 3]`. -/
theorem C2_steps_amended_witness :
    (extract_steps 2 [["a"], ["a"], ["b"]]).length =
      2 * (dedupWithIndex [["a"], ["a"], ["b"]]).length ∧
    stepNumbersOfGuide (extract_steps 2 [["a"], ["a"], ["b"]]) 2 =
      (dedupWithIndex [["a"], ["a"], ["b"]]).map (fun p => p.1 + 1) :=
  ⟨(C2_steps_amended 2 [["a"], ["a"], ["b"]]).1,
    (C2_steps_amended 2 [["a"], ["a"], ["b"]]).2.2.1 2 (by decide)
      (by decide)⟩

/-! ## Claim C6 -/

lemma unescQ_cons_of_ne {c : Char} (rest : List Char)
    (h : c ≠ quoteChar) : unescQ (c :: rest) = c :: unescQ rest := by
  cases rest with
  | nil => rfl
  | cons c' t =>
    rw [unescQ, if_neg]
    intro hc
    exact h hc.1

lemma unescQ_escQ : ∀ t : List Char, unescQ (escQ t) = t := by
  intro t
  induction t with
  | nil => rfl
  | cons c t ih =>
    rw [escQ]
    by_cases h : c = quoteChar
    · rw [if_pos h, unescQ, if_pos ⟨h, h⟩, ih]
    · rw [if_neg h, unescQ_cons_of_ne _ h, ih]

lemma take6_append {t rest : List Char} (h : t.take 6 = "INSERT".data) :
    (t ++ rest).take 6 = "INSERT".data := by
  have hlen : 6 ≤ t.length := by
    have h2 := congrArg List.length h
    rw [List.length_take] at h2
    have h3 : ("INSERT".data).length = 6 := by decide
    omega
  rw [List.take_append_of_le_length hlen, h]

lemma isInsert_deviceSql (d : DeviceRec) :
    isInsertStmt (deviceSql d) = true := by
  rw [isInsertStmt, decide_eq_true_eq, deviceSql]
  simp only [String.data_append]
  repeat apply take6_append
  decide

lemma isInsert_componentSql (c : ComponentRec) :
    isInsertStmt (componentSql c) = true := by
  rw [isInsertStmt, decide_eq_true_eq, componentSql]
  simp only [String.data_append]
  repeat apply take6_append
  decide

lemma isInsert_guideSql (g : GuideRec) :
    isInsertStmt (guideSql g) = true := by
  rw [isInsertStmt, decide_eq_true_eq, guideSql]
  simp only [String.data_append]
  repeat apply take6_append
  decide

lemma isInsert_stepSql (s : StepRec) :
    isInsertStmt (stepSql s) = true := by
  rw [isInsertStmt, decide_eq_true_eq, stepSql]
  simp only [String.data_append]
  repeat apply take6_append
  decide

lemma filter_isInsert_map {α : Type} (f : α → String) (l : List α)
    (hf : ∀ a, isInsertStmt (f a) = true) :
    (l.map f).filter isInsertStmt = l.map f := by
  rw [List.filter_eq_self]
  intro s hs
  obtain ⟨a, _, rfl⟩ := List.mem_map.1 hs
  exact hf a

/-- Counterexample to claim C6 as stated: guide titles are interpolated
into the INSERT statement without any quote escaping, so the title
`O'Reilly` appears with its bare quote, unlike the escaped rendering the
claim requires for every free-text field. -/
theorem C6_counterexample :
    guideSql ⟨1, "O\x27Reilly", "2024-01-01"⟩ ≠
      claimC6guideSql ⟨1, "O\x27Reilly", "2024-01-01"⟩ ∧
    guideSql ⟨1, "O\x27Reilly", "2024-01-01"⟩ =
      "INSERT INTO Guides (DeviceID, Title, DateCreated) \nVALUES (1, \x27O\x27Reilly\x27, \x272024-01-01\x27);" := by
  exact ⟨by decide, by decide⟩

/-- Amended claim C6: the export emits exactly one INSERT statement per
record; the component and step Description fields are escaped by quote
doubling (an escape that round-trips, so the original text is
recoverable), and a NULL image URL renders as the SQL NULL literal — but
device names, device types, component names and guide titles are
interpolated without escaping. -/
theorem C6_sql_export_amended (m : SchemaMapping) :
    countInserts (generate_sql_inserts m) =
      m.Devices.length + m.Components.length + m.Guides.length +
        m.Steps.length ∧
    (∀ t : List Char, unescQ (escQ t) = t) ∧
    (∀ d : DeviceRec, d.ImageURL = none →
      deviceSql d =
        "INSERT INTO Devices (DeviceName, DeviceType, ImageURL) \nVALUES (\x27" ++
          d.DeviceName ++ "\x27, \x27" ++ d.DeviceType ++ "\x27, NULL);") ∧
    esc ("O\x27Reilly\x27s guide") = "O\x27\x27Reilly\x27\x27s guide" := by
  refine ⟨?_, unescQ_escQ, ?_, by decide⟩
  · rw [generate_sql_inserts, countInserts]
    simp only [List.filter_append,
      filter_isInsert_map deviceSql m.Devices isInsert_deviceSql,
      filter_isInsert_map componentSql m.Components isInsert_componentSql,
      filter_isInsert_map guideSql m.Guides isInsert_guideSql,
      filter_isInsert_map stepSql m.Steps isInsert_stepSql]
    have h1 : List.filter isInsertStmt ["-- DEVICES\n"] = [] := by decide
    have h2 : List.filter isInsertStmt ["\n-- COMPONENTS\n"] = [] := by
      decide
    have h3 : List.filter isInsertStmt ["\n-- GUIDES\n"] = [] := by decide
    have h4 : List.filter isInsertStmt ["\n-- STEPS\n"] = [] := by decide
    rw [h1, h2, h3, h4]
    simp [List.length_append]
    omega
  · intro d hd
    rw [deviceSql, hd]
    apply string_data_inj
    simp [String.data_append, imageUrlSql]

/-- Witness for the amended claim C6 on a one-record-per-table mapping
with a NULL image URL. -/
theorem C6_sql_export_amended_witness :
    countInserts (generate_sql_inserts
      ⟨[⟨"Arduino UNO R3", "Microcontroller Board", none⟩],
       [⟨1, "Ground", "Common return path", ⟩],
       [⟨1, "Getting Started", "2024-01-01"⟩],
       [⟨1, 1, 1, "Connect the USB cable"⟩]⟩) = 1 + 1 + 1 + 1 ∧
    deviceSql ⟨"Arduino UNO R3", "Microcontroller Board", none⟩ =
      "INSERT INTO Devices (DeviceName, DeviceType, ImageURL) \nVALUES (\x27" ++
        "Arduino UNO R3" ++ "\x27, \x27" ++ "Microcontroller Board" ++
        "\x27, NULL);" :=
  ⟨(C6_sql_export_amended
      ⟨[⟨"Arduino UNO R3", "Microcontroller Board", none⟩],
       [⟨1, "Ground", "Common return path", ⟩],
       [⟨1, "Getting Started", "2024-01-01"⟩],
       [⟨1, 1, 1, "Connect the USB cable"⟩]⟩).1,
    (C6_sql_export_amended
      ⟨[⟨"Arduino UNO R3", "Microcontroller Board", none⟩],
       [⟨1, "Ground", "Common return path", ⟩],
       [⟨1, "Getting Started", "2024-01-01"⟩],
       [⟨1, 1, 1, "Connect the USB cable"⟩]⟩).2.2.1
      ⟨"Arduino UNO R3", "Microcontroller Board", none⟩ rfl⟩

/-! ## Claim C9 -/

lemma dedupWithIndex_pairwise_pairs {α : Type} [DecidableEq α]
    (l : List α) :
    (dedupWithIndex l).Pairwise (fun p q => p.1 < q.1) :=
  List.pairwise_map.1 (dedupWithIndex_pairwise_fst l)

lemma mem_dedupWithIndex_get {α : Type} [DecidableEq α] {l : List α}
    {p : Nat × α} (h : p ∈ dedupWithIndex l) : l.get? p.1 = some p.2 :=
  List.mem_enum_iff_get?.1 (List.mem_filter.1 h).1

lemma mem_dedupWithIndex_not_take {α : Type} [DecidableEq α] {l : List α}
    {p : Nat × α} (h : p ∈ dedupWithIndex l) :
    ∀ b ∈ l.take p.1, b ≠ p.2 := by
  have h2 := (List.mem_filter.1 h).2
  simp only [Bool.not_eq_true', List.any_eq_false, decide_eq_true_eq] at h2
  exact h2

lemma dedupWithIndex_pairwise_ne {α : Type} [DecidableEq α] (l : List α) :
    (dedupWithIndex l).Pairwise (fun p q => p.2 ≠ q.2) := by
  refine (dedupWithIndex_pairwise_pairs l).imp_of_mem ?_
  intro p q hp hq hlt
  obtain ⟨hplt, hpget⟩ := List.get?_eq_some.1 (mem_dedupWithIndex_get hp)
  refine mem_dedupWithIndex_not_take hq p.2 ?_
  rw [List.mem_take_iff_getElem]
  refine ⟨p.1, lt_min hlt hplt, ?_⟩
  rw [← hpget]
  simp [List.get_eq_getElem]

lemma dedupFirst_nodup (l : List String) : (dedupFirst l).Nodup := by
  rw [dedupFirst, List.Nodup, List.pairwise_map]
  exact dedupWithIndex_pairwise_ne l

lemma mem_dedupFirst {l : List String} {x : String} :
    x ∈ dedupFirst l ↔ x ∈ l := by
  constructor
  · intro h
    obtain ⟨p, hp, rfl⟩ := List.mem_map.1 h
    obtain ⟨hlt, hget⟩ := List.get?_eq_some.1 (mem_dedupWithIndex_get hp)
    exact hget ▸ List.get_mem l _ _
  · intro h
    obtain ⟨n, hn⟩ := List.mem_iff_get.1 h
    have hex : ∃ i, l.get? i = some x :=
      ⟨n.1, by rw [List.get?_eq_some]; exact ⟨n.2, hn⟩⟩
    have hk := Nat.find_spec hex
    refine List.mem_map.2 ⟨(Nat.find hex, x), ?_, rfl⟩
    rw [dedupWithIndex, List.mem_filter]
    refine ⟨List.mem_enum_iff_get?.2 hk, ?_⟩
    simp only [Bool.not_eq_true', List.any_eq_false, decide_eq_true_eq]
    intro b hb heq
    subst heq
    rw [List.mem_take_iff_getElem] at hb
    obtain ⟨i, hi, hieq⟩ := hb
    have hlt : i < Nat.find hex := lt_of_lt_of_le hi (min_le_left _ _)
    exact Nat.find_min hex hlt (by
      rw [List.get?_eq_some]
      exact ⟨lt_of_lt_of_le hi (min_le_right _ _), by
        simp [List.get_eq_getElem, hieq]⟩)

lemma countsList_sum (cats : List String) :
    ((countsList cats).map Prod.snd).sum = cats.length := by
  rw [countsList, List.map_map]
  have hcomp : (Prod.snd ∘ fun c => (c, cats.count c)) =
      fun c => cats.count c := rfl
  rw [hcomp]
  have h1 : (dedupFirst cats).toFinset = cats.toFinset := by
    ext x
    simp [List.mem_toFinset, mem_dedupFirst]
  have h2 : cats.toFinset = cats.dedup.toFinset := by
    ext x
    simp [List.mem_toFinset, List.mem_dedup]
  rw [← List.sum_toFinset _ (dedupFirst_nodup cats), h1, h2,
    List.sum_toFinset _ (List.nodup_dedup cats)]
  exact List.sum_map_count_dedup_eq_length cats

lemma map_sum_mul (l : List (String × Nat)) (c : ℚ) :
    (l.map (fun p => (p.2 : ℚ) * c)).sum = ((l.map Prod.snd).sum : Nat) * c := by
  induction l with
  | nil => simp
  | cons p ps ih =>
    simp only [List.map_cons, List.sum_cons, ih]
    push_cast
    ring

/-- Claim C9: `compare_categories` reports the common categories as the
set intersection of the two sources, the unique categories as the set
differences, and per-source percentages of `count / total × 100` that
sum to 100 when every item of a nonempty source is categorised; on the
category multisets `{A:2, B:1}` and `{A:1, C:3}` it reports
common `{A}`, unique-to-first `{B}`, unique-to-second `{C}`, with
distributions `66.7%/33.3%` and `25.0%/75.0%`. -/
theorem C9_compare_reports (a b : List RawItem) :
    (∀ c, c ∈ (compare_categories a b).common_categories ↔
      c ∈ catsOfData a ∧ c ∈ catsOfData b) ∧
    (∀ c, c ∈ (compare_categories a b).unique_to_scraper ↔
      c ∈ catsOfData a ∧ c ∉ catsOfData b) ∧
    (∀ c, c ∈ (compare_categories a b).unique_to_llm ↔
      c ∈ catsOfData b ∧ c ∉ catsOfData a) ∧
    (a.length ≠ 0 → (catsOfData a).length = a.length →
      (((compare_categories a b).scraper_counts).map
        (fun p => (p.2 : ℚ) * 100 / a.length)).sum = 100) ∧
    (b.length ≠ 0 → (catsOfData b).length = b.length →
      (((compare_categories a b).llm_counts).map
        (fun p => (p.2 : ℚ) * 100 / b.length)).sum = 100) ∧
    (compare_categories
        [RawItem.dict (some ("A")), RawItem.dict (some ("A")),
          RawItem.dict (some ("B"))]
        [RawItem.dict (some ("A")), RawItem.dict (some ("C")),
          RawItem.dict (some ("C")), RawItem.dict (some ("C"))]).common_categories
      = {"A"} ∧
    (compare_categories
        [RawItem.dict (some ("A")), RawItem.dict (some ("A")),
          RawItem.dict (some ("B"))]
        [RawItem.dict (some ("A")), RawItem.dict (some ("C")),
          RawItem.dict (some ("C")), RawItem.dict (some ("C"))]).unique_to_scraper
      = {"B"} ∧
    (compare_categories
        [RawItem.dict (some ("A")), RawItem.dict (some ("A")),
          RawItem.dict (some ("B"))]
        [RawItem.dict (some ("A")), RawItem.dict (some ("C")),
          RawItem.dict (some ("C")), RawItem.dict (some ("C"))]).unique_to_llm
      = {"C"} ∧
    (compare_categories
        [RawItem.dict (some ("A")), RawItem.dict (some ("A")),
          RawItem.dict (some ("B"))]
        [RawItem.dict (some ("A")), RawItem.dict (some ("C")),
          RawItem.dict (some ("C")), RawItem.dict (some ("C"))]).scraper_distribution
      = [("A", "66.7%"), ("B", "33.3%")] ∧
    (compare_categories
        [RawItem.dict (some ("A")), RawItem.dict (some ("A")),
          RawItem.dict (some ("B"))]
        [RawItem.dict (some ("A")), RawItem.dict (some ("C")),
          RawItem.dict (some ("C")), RawItem.dict (some ("C"))]).llm_distribution
      = [("A", "25.0%"), ("C", "75.0%")] := by
  have hsum : ∀ (cats : List RawItem) (cl : List String), cl = catsOfData cats →
      cats.length ≠ 0 → cl.length = cats.length →
      ((countsList cl).map
        (fun p => (p.2 : ℚ) * 100 / cats.length)).sum = 100 := by
    intro cats cl _ hne hlen
    have hmd : ((countsList cl).map
        (fun p => (p.2 : ℚ) * 100 / cats.length)) =
        ((countsList cl).map
          (fun p => (p.2 : ℚ) * (100 / cats.length))) := by
      refine List.map_congr_left ?_
      intro p _
      rw [mul_div_assoc]
    rw [hmd, map_sum_mul, countsList_sum, hlen]
    have hq : (cats.length : ℚ) ≠ 0 := Nat.cast_ne_zero.2 hne
    field_simp
  refine ⟨?_, ?_, ?_, ?_, ?_, by decide, by decide, by decide, by decide,
    by decide⟩
  · intro c
    simp [compare_categories, Finset.mem_inter, List.mem_toFinset]
  · intro c
    simp [compare_categories, Finset.mem_sdiff, List.mem_toFinset]
  · intro c
    simp [compare_categories, Finset.mem_sdiff, List.mem_toFinset]
  · exact hsum a (catsOfData a) rfl
  · exact hsum b (catsOfData b) rfl

/-- Witness for C9: on the concrete two-source example the scraper-side
percentages sum to exactly 100. -/
theorem C9_compare_reports_witness :
    (((compare_categories
        [RawItem.dict (some ("A")), RawItem.dict (some ("A")),
          RawItem.dict (some ("B"))]
        [RawItem.dict (some ("A")), RawItem.dict (some ("C")),
          RawItem.dict (some ("C")), RawItem.dict (some ("C"))]).scraper_counts).map
      (fun p => (p.2 : ℚ) * 100 /
        ([RawItem.dict (some ("A")), RawItem.dict (some ("A")),
          RawItem.dict (some ("B"))] : List RawItem).length)).sum = 100 :=
  (C9_compare_reports
    [RawItem.dict (some ("A")), RawItem.dict (some ("A")),
      RawItem.dict (some ("B"))]
    [RawItem.dict (some ("A")), RawItem.dict (some ("C")),
      RawItem.dict (some ("C")), RawItem.dict (some ("C"))]).2.2.2.1
    (by decide) (by decide)
